import Mathlib

/-!
Verification of the CLI scaffolding helper module
(`tools/cli/helpers/util.js`) of the apollo-universal-starter-kit
repository.  The JavaScript helpers are shallowly embedded as pure Lean
functions: file contents are `String`s (manipulated as `List Char`), and
the filesystem visible to the export-file patcher is a map from paths to
optional contents.  The `BASE_PATH` configuration constant (which lives in
`tools/cli/config`, outside the sources in scope) is passed explicitly as
a `basePath` argument, following the design note of the spec that the
global base path be treated as an injected configuration value.
-/

namespace CliUtil

/-- Character constants, used so that no brace or apostrophe character
literal has to appear in the file. -/
def dollar : Char := Char.ofNat 36

/-- Apostrophe character (code 39). -/
def apos : Char := Char.ofNat 39

/-- Opening curly brace character (code 123). -/
def lbrace : Char := Char.ofNat 123

/-- Closing curly brace character (code 125). -/
def rbrace : Char := Char.ofNat 125

/-- Apostrophe as a one-character string, for building the literal
quoted module specifiers that appear in the source and the spec. -/
def q : String := String.singleton apos

/-- JavaScript whitespace test: the characters matched by the regex
class backslash-s and removed by `String.prototype.trim` (restricted to
the ASCII range, which is all the generated files use). -/
def isWs (c : Char) : Bool :=
  c = ' ' || c = '\t' || c = '\n' || c = '\r' || c = Char.ofNat 11 || c = Char.ofNat 12

/-- JavaScript `String.prototype.trim`: drop whitespace from both ends. -/
def jsTrim (l : List Char) : List Char :=
  ((l.dropWhile isWs).reverse.dropWhile isWs).reverse

/-- Occurrence test: `occursIn pat l` is true when `pat` occurs as a
contiguous substring of `l` (the JavaScript `String.prototype.includes`). -/
def occursIn (pat : List Char) : List Char → Bool
  | [] => pat.isEmpty
  | c :: cs => pat.isPrefixOf (c :: cs) || occursIn pat cs

/-- JavaScript `String.prototype.replace` with a *string* pattern: only
the first (leftmost) occurrence of `pat` is replaced by `repl`.  This is
the semantics of `entry.name.replace('Module', Module)` at util.js line 34. -/
def replaceFirst (pat repl : List Char) : List Char → List Char
  | [] => if pat.isEmpty then repl else []
  | c :: cs =>
    if pat.isPrefixOf (c :: cs) then repl ++ (c :: cs).drop pat.length
    else c :: replaceFirst pat repl cs

/-- Literal filename substring `Module` replaced during the rename pass. -/
def moduleWord : List Char := "Module".data

/-- Rename step of `renameFiles` (util.js lines 32-36): a single file's
name is transformed by `entry.name.replace('Module', Module)`, where
`Module` is the PascalCase rendering of the module name (computed by the
external `humps.pascalize`, passed here as `pascalName`). -/
def renameFileStep (pascalName fileName : List Char) : List Char :=
  replaceFirst moduleWord pascalName fileName

/-- Leading hyphen-delimited segment of a location tag: the JavaScript
expression `location.split('-')[0]` used by the path resolver. -/
def splitHeadHyphen (location : String) : String :=
  String.mk (location.data.takeWhile (fun c => c ≠ '-'))

/-- Path resolver `computeModulesPath` (util.js lines 58-64).  `old`
models the truthiness of `options.old`; `basePath` is the injected
`BASE_PATH` constant. -/
def computeModulesPath (basePath location : String) (old : Bool) (moduleName : String) : String :=
  if old || (moduleName == "" && splitHeadHyphen location == "server") then
    basePath ++ "/packages/" ++ splitHeadHyphen location ++ "/src/modules/" ++ moduleName
  else if moduleName == "" then
    basePath ++ "/packages/" ++ splitHeadHyphen location ++ "/src/"
  else
    basePath ++ "/modules/" ++ moduleName ++ "/" ++ location

/-- Path resolver `computePackagePath` (util.js lines 97-99). -/
def computePackagePath (basePath location : String) : String :=
  basePath ++ "/packages/" ++ splitHeadHyphen location ++ "/package.json"

/-- Recognized schema field kinds.  The source classifies `value.type`
with `hasTypeOf : value.type === T || value.type.prototype instanceof T`
against the external `@domain-schema/core` class hierarchy; following the
spec's design note, that external classification is abstracted as a closed
tagged union, `unknown` standing for a type matching none of the eight
recognized kinds. -/
inductive FieldKind where
  | boolean
  | id
  | int
  | float
  | string
  | date
  | dateTime
  | time
  | unknown

/-- Schema field as seen by the field-type mapper: its classified type
kind and its `optional` flag. -/
structure SchemaField where
  kind : FieldKind
  optional : Bool

/-- Name contributed by the first matching branch of the `hasTypeOf`
cascade in `generateField` (util.js lines 152-168); the empty string when
no branch matches. -/
def fieldTypeName : FieldKind → String
  | .boolean => "Boolean"
  | .id => "ID"
  | .int => "Int"
  | .float => "Float"
  | .string => "String"
  | .date => "Date"
  | .dateTime => "DateTime"
  | .time => "Time"
  | .unknown => ""

/-- Field-type mapper `generateField` (util.js lines 149-175): the name
of the first matching kind, with the non-null marker appended when
neither `update` nor `value.optional` is set. -/
def generateField (value : SchemaField) (update : Bool) : String :=
  let result := fieldTypeName value.kind
  if !update && !value.optional then result ++ "!" else result

/-- Filesystem visible to the export-file patcher: a map from paths to
the contents of existing files (`none` models a path for which
`fs.existsSync` is false). -/
abbrev FS := String → Option String

/-- Effect of `fs.writeFileSync(p, v)` on the filesystem map. -/
def fsWrite (fs : FS) (p v : String) : FS :=
  fun x => if x = p then some v else fs x

/-- Helper for `lastIndexOfAposSemi`: scans the list remembering the
index of the most recent occurrence of apostrophe-semicolon seen so far. -/
def lastAposSemiAux : List Char → Nat → Option Nat → Option Nat
  | [], _, acc => acc
  | c :: cs, i, acc =>
    lastAposSemiAux cs (i + 1)
      (if c = apos && cs.head? = some ';' then some i else acc)

/-- JavaScript `generatedContainer.lastIndexOf("';")` (util.js line 190):
the index of the last occurrence of the two-character substring
apostrophe-semicolon, `none` when there is none (JavaScript's -1). -/
def lastIndexOfAposSemi (l : List Char) : Option Nat :=
  lastAposSemiAux l 0 none

/-- Global regex replacement for the pattern `(,|)\s\x7d;` of util.js
line 197: at each scan position the engine first tries a comma followed
by one whitespace character and the closing sequence, then just one
whitespace character and the closing sequence; on a match the replacement
is emitted and scanning resumes after the matched text, otherwise the
scan advances one character. -/
def replaceCommaWsBrace (repl : List Char) : List Char → List Char
  | c1 :: c2 :: c3 :: c4 :: rest =>
    if c1 = ',' && isWs c2 && c3 = rbrace && c4 = ';' then
      repl ++ replaceCommaWsBrace repl rest
    else if isWs c1 && c2 = rbrace && c3 = ';' then
      repl ++ replaceCommaWsBrace repl (c4 :: rest)
    else
      c1 :: replaceCommaWsBrace repl (c2 :: c3 :: c4 :: rest)
  | [c1, c2, c3] =>
    if isWs c1 && c2 = rbrace && c3 = ';' then repl
    else c1 :: replaceCommaWsBrace repl [c2, c3]
  | l => l

/-- Text of the fresh default-export block built at util.js line 184:
a newline, `export default`, an opening brace, the export name indented
by two spaces, and the closing brace with semicolon. -/
def exportGraphqlContainer (exportName : String) : List Char :=
  '\n' :: ("export default ".data ++ [lbrace, '\n', ' ', ' ']
    ++ exportName.data ++ ['\n', rbrace, ';', '\n'])

/-- Replacement text `,\n  exportName\n\x7d;` inserted by the regex
rewrite at util.js line 197. -/
def trailingKeyRepl (exportName : String) : List Char :=
  ',' :: '\n' :: ' ' :: ' ' :: (exportName.data ++ ['\n', rbrace, ';'])

/-- Export-file patcher `updateFileWithExports` (util.js lines 183-203).
When the path does not exist nothing happens.  When it exists, the
content is trimmed; if the trimmed content has more than one character
and contains an apostrophe-semicolon terminator, the import string is
spliced in right after the terminator (and its following character) and
the trailing-key rewrite inserts the export name into the export block;
otherwise the file is overwritten with the import string followed by a
fresh default-export block. -/
def updateFileWithExports (fs : FS) (pathToFileWithExports exportName importString : String) :
    FS :=
  match fs pathToFileWithExports with
  | none => fs
  | some data =>
    let generatedContainer := jsTrim data.data
    if generatedContainer.length > 1 then
      match lastIndexOfAposSemi generatedContainer with
      | some index =>
        let computedIndex := index + 3
        let spliced := generatedContainer.take computedIndex ++ importString.data
          ++ generatedContainer.drop computedIndex
        fsWrite fs pathToFileWithExports
          (String.mk (replaceCommaWsBrace (trailingKeyRepl exportName) spliced))
      | none =>
        fsWrite fs pathToFileWithExports
          (importString ++ String.mk (exportGraphqlContainer exportName))
    else
      fsWrite fs pathToFileWithExports
        (importString ++ String.mk (exportGraphqlContainer exportName))

/-- Character class of the regex dot in JavaScript: any character except
a line terminator. -/
def isDotChar (c : Char) : Bool := c ≠ '\n' && c ≠ '\r'

/-- Negative lookahead `(?!ex)` of the deletion regex: true exactly when
the remaining text starts with the two characters `ex`. -/
def lookaheadEx : List Char → Bool
  | 'e' :: 'x' :: _ => true
  | _ => false

/-- Length of the maximal leading run of newline characters. -/
def nlRun : List Char → Nat
  | '\n' :: rest => nlRun rest + 1
  | _ => 0

/-- Length of the maximal leading run of regex-dot characters. -/
def dotRun : List Char → Nat
  | [] => 0
  | c :: rest => if isDotChar c then dotRun rest + 1 else 0

/-- Backtracking search for the greedy `\n+(?!ex)` tail of the deletion
regex: try newline-run lengths from `m` down to 1, succeeding on the
largest one whose following text does not start with `ex`.  The caller
starts `m` at the maximal newline run, so every tried length is realized
by actual newline characters. -/
def tryNl : Nat → List Char → Option Nat
  | 0, _ => none
  | m + 1, s => if lookaheadEx (s.drop (m + 1)) then tryNl m s else some (m + 1)

/-- Backtracking search for the greedy `.+;\n+(?!ex)` tail of the
deletion regex: try dot-run lengths from `d` down to 1; a length
succeeds when it is followed by a semicolon and the newline search
succeeds after it.  Returns the total number of characters consumed.
The caller starts `d` at the maximal dot run. -/
def tryK : Nat → List Char → Option Nat
  | 0, _ => none
  | d + 1, s =>
    match s.drop (d + 1) with
    | ';' :: rest2 =>
      match tryNl (nlRun rest2) rest2 with
      | some m => some (d + 2 + m)
      | none => tryK d s
    | _ => tryK d s

/-- Match length at the current position for the first alternative
`\n\s\s<name>(.|)` of the deletion regex of util.js line 213: a newline,
two whitespace characters, the export name, and then greedily one
non-newline character if available. -/
def alt1Len (n s : List Char) : Option Nat :=
  match s with
  | c0 :: c1 :: c2 :: rest =>
    if c0 = '\n' && isWs c1 && isWs c2 && n.isPrefixOf rest then
      match (rest.drop n.length).head? with
      | some c => if isDotChar c then some (3 + n.length + 1) else some (3 + n.length)
      | none => some (3 + n.length)
    else none
  | _ => none

/-- Keyword prefix of an import statement, including its trailing space. -/
def importKeyword : List Char := "import ".data

/-- Match length at the current position for the second alternative
`import (<name>|\x7b <name> \x7d).+;\n+(?!ex)` of the deletion regex:
the literal `import `, then the export name (or the name wrapped in
braces), then the greedy dot-semicolon-newline tail with the negative
lookahead.  The alternation is tried name-first, and the braced form is
attempted when the plain form fails anywhere. -/
def alt2Len (n s : List Char) : Option Nat :=
  if importKeyword.isPrefixOf s then
    let s1 := s.drop 7
    let tryWith : List Char → Option Nat := fun g =>
      if g.isPrefixOf s1 then
        let s2 := s1.drop g.length
        match tryK (dotRun s2) s2 with
        | some t => some (7 + g.length + t)
        | none => none
      else none
    match tryWith n with
    | some L => some L
    | none => tryWith (lbrace :: ' ' :: (n ++ [' ', rbrace]))
  else none

/-- Fueled global scan of the deletion regex: at each position the first
alternative is tried, then the second; on a match the matched characters
are dropped (replacement by the empty string), otherwise the current
character is kept and the scan advances.  The fuel only bounds the
recursion; `removeScan` instantiates it with the list length, which every
step strictly decreases. -/
def removeScanF (n : List Char) : Nat → List Char → List Char
  | 0, l => l
  | _ + 1, [] => []
  | fuel + 1, c :: cs =>
    match alt1Len n (c :: cs) with
    | some L => removeScanF n fuel (cs.drop (L - 1))
    | none =>
      match alt2Len n (c :: cs) with
      | some L => removeScanF n fuel (cs.drop (L - 1))
      | none => c :: removeScanF n fuel cs

/-- Global replacement with the empty string of the deletion regex of
util.js line 213, on a whole content string. -/
def removeScan (n l : List Char) : List Char := removeScanF n l.length l

/-- Export-file patcher `deleteFromFileWithExports` (util.js lines
210-219).  When the path exists, all matches of the deletion regex are
removed and the file rewritten; the subsequent `runPrettier` call is an
excluded external collaborator (it only normalizes whitespace) and is
not modelled.  When the path does not exist nothing happens. -/
def deleteFromFileWithExports (fs : FS) (pathToFileWithExports exportName : String) : FS :=
  match fs pathToFileWithExports with
  | none => fs
  | some data =>
    fsWrite fs pathToFileWithExports (String.mk (removeScan exportName.data data.data))

/-- Identifier characters, used by the observers that read names back
out of a generated export file. -/
def identChar (c : Char) : Bool := c.isAlphanum || c = '_'

/-- Observer: the names imported by a content string, namely for every
line that starts with the import keyword, the identifier that follows
it.  This reads the export-file format described in the spec back out of
the raw text. -/
def importNames (content : List Char) : List (List Char) :=
  (content.splitOn '\n').filterMap fun ln =>
    if importKeyword.isPrefixOf ln then some ((ln.drop 7).takeWhile identChar) else none

/-- Observer: the text of the default-export block, namely the characters
strictly between the first opening brace and the next closing brace. -/
def exportBlock (content : List Char) : List Char :=
  (((content.dropWhile (fun c => c ≠ lbrace)).drop 1).takeWhile (fun c => c ≠ rbrace))

/-- Observer: the keys of the default-export block, namely the
comma-separated entries of the block text, trimmed, empty entries
dropped. -/
def exportKeys (content : List Char) : List (List Char) :=
  (((exportBlock content).splitOn ',').map jsTrim).filter (fun seg => !seg.isEmpty)

/-- Fueled global regex replacement with a literal pattern and a literal
replacement: the semantics of `shell.sed('-i', /pat/g, repl, file)` used
by the substitution pass of `renameFiles` (util.js lines 39-48).  The
scan replaces leftmost non-overlapping occurrences and resumes after the
inserted replacement.  The fuel only bounds the recursion; `gsub`
instantiates it with the list length, which every step strictly
decreases. -/
def gsubF (pat repl : List Char) : Nat → List Char → List Char
  | 0, l => l
  | _ + 1, [] => []
  | fuel + 1, c :: cs =>
    if pat.isPrefixOf (c :: cs) then
      repl ++ gsubF pat repl fuel (cs.drop (pat.length - 1))
    else
      c :: gsubF pat repl fuel cs

/-- Global regex replacement of every occurrence of `pat` by `repl`. -/
def gsub (pat repl l : List Char) : List Char := gsubF pat repl l.length l

/-- Placeholder token `$module$`. -/
def tokModule : List Char := dollar :: ("module".data ++ [dollar])

/-- Placeholder token `$_module$`. -/
def tokSnakeModule : List Char := dollar :: ("_module".data ++ [dollar])

/-- Placeholder token `$-module$`. -/
def tokKebabModule : List Char := dollar :: ("-module".data ++ [dollar])

/-- Placeholder token `$Module$`. -/
def tokPascalModule : List Char := dollar :: ("Module".data ++ [dollar])

/-- Placeholder token `$MoDuLe$`. -/
def tokMoDuLe : List Char := dollar :: ("MoDuLe".data ++ [dollar])

/-- Placeholder token `$MODULE$`. -/
def tokUpperModule : List Char := dollar :: ("MODULE".data ++ [dollar])

/-- Substitution pass of `renameFiles` (util.js lines 41-46) on one
file's content: the six global sed replacements applied in source order,
with the six rendered module-name variants (module name, decamelized,
kebab-decamelized, PascalCase, start case, upper case — the renderers are
the external humps and lodash collaborators, so the rendered strings are
passed as arguments `r1` … `r6`). -/
def substituteTokens (r1 r2 r3 r4 r5 r6 content : List Char) : List Char :=
  gsub tokUpperModule r6
    (gsub tokMoDuLe r5
      (gsub tokPascalModule r4
        (gsub tokKebabModule r3
          (gsub tokSnakeModule r2
            (gsub tokModule r1 content)))))

/-- Shape shared by all six placeholder tokens: a dollar sign, an
interior, and a closing dollar sign. -/
def tokenOf (mid : List Char) : List Char := dollar :: (mid ++ [dollar])

/-- Interiors of the six placeholder tokens, in source order. -/
def tokenInteriors : List (List Char) :=
  ["module".data, "_module".data, "-module".data, "Module".data, "MoDuLe".data, "MODULE".data]

/-- The six placeholder tokens, in source order. -/
def placeholderTokens : List (List Char) :=
  [tokModule, tokSnakeModule, tokKebabModule, tokPascalModule, tokMoDuLe, tokUpperModule]

/-- Canonical import statement `import N from ./N;` (with the module
specifier quoted by apostrophes) followed by a newline, as the generator
emits it. -/
def impOf (n : String) : String :=
  "import " ++ n ++ " from " ++ q ++ "./" ++ n ++ q ++ ";\n"

/-- Canonical single-entry export file: one import statement, a blank
line, and a default-export block with the single key `n`. -/
def canonicalFile (n : String) : String :=
  impOf n ++ "\nexport default \x7b\n  " ++ n ++ "\n\x7d;\n"

/-- Text that `updateFileWithExports` writes over an effectively empty
export file when called with export name `Foo` and import string
`impOf "Foo"`. -/
def addedFooText : String :=
  impOf "Foo" ++ "\nexport default \x7b\n  Foo\n\x7d;\n"

/-- Filesystem with a single file at path `f` holding `v`. -/
def singleFileFS (v : String) : FS :=
  fun x => if x = "f" then some v else none

/-- Content of the file after adding and then removing `Bar` in the
canonical single-entry `Foo` export file (the trailing comma is left for
the external prettier pass to clean up). -/
def roundTripFooText : String :=
  impOf "Foo" ++ "\nexport default \x7b\n  Foo,\n\x7d;"

end CliUtil

namespace CliUtil

/-! Theorems settling the claims. -/

/-- C9: for every export-file path that does not exist on disk and for
every export name and import string, `updateFileWithExports` performs no
write at all: the filesystem is unchanged. -/
theorem C9_theorem (fs : FS) (p e i : String) (h : fs p = none) :
    updateFileWithExports fs p e i = fs := by
  simp [updateFileWithExports, h]

/-- Witness for C9 at a concrete empty filesystem. -/
theorem C9_witness :
    updateFileWithExports (fun _ => none) "idx" "Foo" "IMP" = (fun _ => none) :=
  C9_theorem (fun _ => none) "idx" "Foo" "IMP" rfl

/-- C1 counterexample: for a path that does not exist, the claimed file
creation does not happen — the path still maps to nothing afterwards,
not to the import string followed by a default-export block. -/
theorem C1_counterexample :
    (updateFileWithExports (fun _ => none) "idx" "Foo" (impOf "Foo")) "idx" = none ∧
      (updateFileWithExports (fun _ => none) "idx" "Foo" (impOf "Foo")) "idx" ≠
        some addedFooText := by
  have h0 : (updateFileWithExports (fun _ => none) "idx" "Foo" (impOf "Foo")) "idx" = none := rfl
  exact ⟨h0, by rw [h0]; simp⟩

/-- C1 amended: the creation behavior described by the claim is attached
to a path that exists with effectively empty or terminator-free content:
if the file exists and its trimmed content has at most one character or
no apostrophe-semicolon terminator, the file is overwritten with the
given import string followed by a default-export block containing only
the export name.  A path that does not exist is left untouched. -/
theorem C1_theorem (fs : FS) (p d e i : String) (h : fs p = some d)
    (hd : (jsTrim d.data).length ≤ 1 ∨ lastIndexOfAposSemi (jsTrim d.data) = none) :
    updateFileWithExports fs p e i =
      fsWrite fs p (i ++ String.mk (exportGraphqlContainer e)) := by
  rcases hd with hd | hd
  · have hgt : ¬ (jsTrim d.data).length > 1 := by omega
    simp [updateFileWithExports, h, hgt]
  · by_cases hgt : (jsTrim d.data).length > 1
    · simp [updateFileWithExports, h, hgt, hd]
    · simp [updateFileWithExports, h, hgt]

/-- Witness for C1 at a file holding a single space. -/
theorem C1_witness :
    updateFileWithExports (singleFileFS " ") "f" "Foo" "IMP" =
      fsWrite (singleFileFS " ") "f" ("IMP" ++ String.mk (exportGraphqlContainer "Foo")) :=
  C1_theorem (singleFileFS " ") "f" " " "Foo" "IMP" rfl (Or.inl (by decide))

/-- C7: if the export file exists with empty content, adding `Foo` with
its canonical import string writes exactly the text
`import Foo from ./Foo;` (module specifier quoted), a blank line, and
`export default` block containing only `Foo`. -/
theorem C7_theorem (fs : FS) (p : String) (h : fs p = some "") :
    updateFileWithExports fs p "Foo" (impOf "Foo") = fsWrite fs p addedFooText := by
  have hv : impOf "Foo" ++ String.mk (exportGraphqlContainer "Foo") = addedFooText := by
    decide
  have hlen : ¬ ((jsTrim ("" : String).data).length > 1) := by decide
  simp [updateFileWithExports, h, hv, hlen]

/-- Witness for C7 at a concrete single-file filesystem. -/
theorem C7_witness :
    updateFileWithExports (singleFileFS "") "f" "Foo" (impOf "Foo") =
      fsWrite (singleFileFS "") "f" addedFooText :=
  C7_theorem (singleFileFS "") "f" rfl

/-- C2 counterexample: `computeModulesPath` applied to location `server`,
no options and the empty module name yields the legacy modules directory
`B/packages/server/src/modules/`, not the package-src form
`B/packages/server/src/` stated by the claim. -/
theorem C2_counterexample :
    computeModulesPath "B" "server" false "" = "B/packages/server/src/modules/" ∧
      computeModulesPath "B" "server" false "" ≠ "B/packages/server/src/" := by
  decide

/-- C2 amended: with options `old` the legacy per-package path is
produced, with no options and a nonempty module name the new per-module
path is produced, and with no options and an empty module name the
`server` location still takes the legacy branch, yielding the modules
directory of the server package (the package-src form arises for a
non-server location such as `client`). -/
theorem C2_theorem (base : String) :
    computeModulesPath base "server" true "Billing" =
        base ++ "/packages/server/src/modules/Billing" ∧
      computeModulesPath base "server" false "Billing" = base ++ "/modules/Billing/server" ∧
      computeModulesPath base "server" false "" = base ++ "/packages/server/src/modules/" ∧
      computeModulesPath base "client" false "" = base ++ "/packages/client/src/" := by
  refine ⟨?_, ?_, ?_, ?_⟩ <;>
    simp [computeModulesPath, splitHeadHyphen, String.append_assoc]

/-- C3 counterexample: a schema field of unrecognized kind with
`isUpdate` false and `optional` false is mapped to the bare non-null
marker, not to the empty string stated by the claim. -/
theorem C3_counterexample :
    generateField ⟨FieldKind.unknown, false⟩ false = "!" ∧
      generateField ⟨FieldKind.unknown, false⟩ false ≠ "" := by
  decide

/-- C3 amended: an unrecognized field kind contributes no type name, but
the non-null marker is still appended when both flags are false: the
mapper returns the empty string when `isUpdate` or `optional` is set and
exactly the non-null marker when both are clear. -/
theorem C3_theorem (opt update : Bool) :
    generateField ⟨FieldKind.unknown, opt⟩ update =
      if update = false ∧ opt = false then "!" else "" := by
  cases opt <;> cases update <;> rfl

/-- C10: for every schema field of unrecognized kind with `optional`
false, mapping with `isUpdate` false yields exactly the non-null
marker. -/
theorem C10_theorem (f : SchemaField) (hk : f.kind = FieldKind.unknown)
    (ho : f.optional = false) : generateField f false = "!" := by
  obtain ⟨k, o⟩ := f
  subst hk
  subst ho
  rfl

/-- Witness for C10 at the concrete unrecognized non-optional field. -/
theorem C10_witness :
    (⟨FieldKind.unknown, false⟩ : SchemaField).kind = FieldKind.unknown ∧
      (⟨FieldKind.unknown, false⟩ : SchemaField).optional = false ∧
      generateField ⟨FieldKind.unknown, false⟩ false = "!" :=
  ⟨rfl, rfl, C10_theorem ⟨FieldKind.unknown, false⟩ rfl rfl⟩

/-- C5 counterexample: the locations `server` and `server-old` share the
leading hyphen-delimited segment, yet `computeModulesPath` with no
options and a nonempty module name sends them to different paths,
because the new-layout branch embeds the full location string. -/
theorem C5_counterexample :
    splitHeadHyphen "server-old" = "server" ∧
      computeModulesPath "B" "server" false "Billing" ≠
        computeModulesPath "B" "server-old" false "Billing" := by
  decide

/-- C5 amended: `computePackagePath` depends on the location only
through its leading hyphen-delimited segment; `computeModulesPath` does
so only when options `old` is set or the module name is empty — in the
remaining new-layout branch the full location string appears in the
result. -/
theorem C5_theorem (base l1 l2 : String) (old : Bool) (name : String)
    (h : splitHeadHyphen l1 = splitHeadHyphen l2) :
    computePackagePath base l1 = computePackagePath base l2 ∧
      (old = true ∨ name = "" →
        computeModulesPath base l1 old name = computeModulesPath base l2 old name) := by
  constructor
  · simp [computePackagePath, h]
  · rintro (h1 | h1) <;> subst h1 <;> simp [computeModulesPath, h]

/-- Witness for C5 at the concrete pair `server` and `server-old`. -/
theorem C5_witness :
    computePackagePath "B" "server" = computePackagePath "B" "server-old" ∧
      (true = true ∨ ("Billing" : String) = "" →
        computeModulesPath "B" "server" true "Billing" =
          computeModulesPath "B" "server-old" true "Billing") :=
  C5_theorem "B" "server" "server-old" true "Billing" (by decide)

/-- C4 counterexample: renaming a file whose name contains `Module`
twice with the PascalCase name `User` replaces only the first
occurrence: the result still contains the literal substring `Module`. -/
theorem C4_counterexample :
    renameFileStep "User".data "ModuleModule.js".data = "UserModule.js".data ∧
      occursIn moduleWord (renameFileStep "User".data "ModuleModule.js".data) = true := by
  decide

/-- C6 counterexample: adding and then removing `Foo` in the canonical
export file whose only entry is `FooBar` does not leave the other key
set unchanged — the deletion regex also matches inside `FooBar`, and the
`FooBar` entry is destroyed. -/
theorem C6_counterexample :
    exportKeys (canonicalFile "FooBar").data = ["FooBar".data] ∧
      (deleteFromFileWithExports
          (updateFileWithExports (singleFileFS (canonicalFile "FooBar")) "f" "Foo" (impOf "Foo"))
          "f" "Foo") "f" = some ("\nexport default \x7bar,\n\x7d;") ∧
      "FooBar".data ∉ exportKeys ("\nexport default \x7bar,\n\x7d;").data := by
  decide

/-- C6 amended: the round trip holds when the export name does not
overlap any existing name: for the canonical single-entry export file
with key `Foo`, adding `Bar` and then removing `Bar` yields a file in
which `Bar` appears in neither the import statements nor the
default-export block, with `Foo` still the only import and the only key
(whitespace aside — a trailing comma is left for the excluded prettier
pass).  In general the claim fails when the export name occurs inside
another name, as the counterexample shows. -/
theorem C6_theorem :
    (deleteFromFileWithExports
        (updateFileWithExports (singleFileFS (canonicalFile "Foo")) "f" "Bar" (impOf "Bar"))
        "f" "Bar") "f" = some roundTripFooText ∧
      occursIn "Bar".data roundTripFooText.data = false ∧
      exportKeys roundTripFooText.data = ["Foo".data] ∧
      importNames roundTripFooText.data = ["Foo".data] := by
  decide

/-- Helper: the Boolean occurrence test agrees with the infix relation. -/
theorem occursIn_iff {pat : List Char} : ∀ {l : List Char}, occursIn pat l = true ↔ pat <:+: l
  | [] => by
    simp [occursIn, List.isEmpty_iff]
  | c :: cs => by
    rw [occursIn, Bool.or_eq_true, List.isPrefixOf_iff_prefix, occursIn_iff,
      List.infix_cons_iff]

/-- Helper: a nonempty prefix of a list is never disjoint from the list;
specifically, if the whole pattern is a prefix of `l` then the Boolean
occurrence test holds on `l`. -/
theorem occursIn_of_isPrefix {pat l : List Char} (h : pat <+: l) : occursIn pat l = true :=
  occursIn_iff.mpr h.isInfix

/-- Helper: unfolding equation of `replaceFirst` when the pattern is a
prefix of the scanned list. -/
theorem replaceFirst_pos {pat repl l : List Char} (h : pat.isPrefixOf l = true) :
    replaceFirst pat repl l = repl ++ l.drop pat.length := by
  cases l with
  | nil =>
    cases pat with
    | nil => simp [replaceFirst]
    | cons p ps => simp [List.isPrefixOf] at h
  | cons c cs =>
    rw [replaceFirst]
    simp [h]

/-- Helper: unfolding equation of `replaceFirst` when the pattern is not
a prefix at the current position. -/
theorem replaceFirst_neg {pat repl : List Char} {c : Char} {cs : List Char}
    (h : pat.isPrefixOf (c :: cs) = false) :
    replaceFirst pat repl (c :: cs) = c :: replaceFirst pat repl cs := by
  rw [replaceFirst]
  simp [h]

/-- C4 amended: the rename step replaces exactly the first occurrence of
`Module`: for every PascalCase rendering `P` and every decomposition of a
filename as `pre ++ Module ++ post` in which no occurrence of `Module`
starts before the marked one (no occurrence inside `pre` extended by the
first five characters of `Module`), the result is `pre ++ P ++ post` —
later occurrences, inside `post`, are left in place, as the
counterexample shows. -/
theorem C4_theorem (P pre post : List Char)
    (h : occursIn moduleWord (pre ++ moduleWord.take 5) = false) :
    renameFileStep P (pre ++ moduleWord ++ post) = pre ++ P ++ post := by
  induction pre with
  | nil =>
    have hpre : moduleWord.isPrefixOf (moduleWord ++ post) = true := by
      rw [List.isPrefixOf_iff_prefix]
      exact List.prefix_append _ _
    show replaceFirst moduleWord P ([] ++ moduleWord ++ post) = [] ++ P ++ post
    rw [List.nil_append, List.nil_append, replaceFirst_pos hpre, List.drop_left]
  | cons c pre ih =>
    have htail : occursIn moduleWord (pre ++ moduleWord.take 5) = false := by
      have hc : ((c :: pre) ++ moduleWord.take 5) = c :: (pre ++ moduleWord.take 5) := by
        simp
      rw [hc, occursIn, Bool.or_eq_false_iff] at h
      exact h.2
    have hnp : moduleWord.isPrefixOf (c :: (pre ++ moduleWord ++ post)) = false := by
      by_contra hcon
      have hpre : moduleWord <+: ((c :: pre) ++ moduleWord ++ post) := by
        have : moduleWord <+: c :: (pre ++ moduleWord ++ post) := by
          rw [← List.isPrefixOf_iff_prefix]
          exact Bool.of_not_eq_false hcon
        simpa using this
      have hA : ((c :: pre) ++ moduleWord.take 5) <+: ((c :: pre) ++ moduleWord ++ post) := by
        rw [List.append_assoc, List.prefix_append_right_inj]
        exact (List.take_prefix 5 moduleWord).trans (List.prefix_append _ _)
      have hlen : moduleWord.length ≤ ((c :: pre) ++ moduleWord.take 5).length := by
        simp [moduleWord]
      have hocc : moduleWord <+: ((c :: pre) ++ moduleWord.take 5) :=
        List.prefix_of_prefix_length_le hpre hA hlen
      rw [occursIn_of_isPrefix hocc] at h
      simp at h
    have hgoal : (c :: pre) ++ moduleWord ++ post = c :: (pre ++ moduleWord ++ post) := by
      simp
    rw [hgoal]
    show replaceFirst moduleWord P (c :: (pre ++ moduleWord ++ post)) = (c :: pre) ++ P ++ post
    rw [replaceFirst_neg hnp]
    have := ih htail
    rw [renameFileStep] at this
    rw [this]
    simp

/-- Witness for C4 at the filename `MyModule.js` decomposed around its
single occurrence of `Module`. -/
theorem C4_witness :
    occursIn moduleWord ("My".data ++ moduleWord.take 5) = false ∧
      renameFileStep "User".data ("My".data ++ moduleWord ++ ".js".data) =
        "My".data ++ "User".data ++ ".js".data :=
  ⟨by decide, C4_theorem "User".data "My".data ".js".data (by decide)⟩

/-- Helper: unfolding equation of `gsubF` with zero fuel. -/
theorem gsubF_zero (p r l : List Char) : gsubF p r 0 l = l := rfl

/-- Helper: unfolding equation of `gsubF` on the empty list. -/
theorem gsubF_nil (p r : List Char) (fuel : Nat) : gsubF p r (fuel + 1) [] = [] := rfl

/-- Helper: unfolding equation of `gsubF` at a match position. -/
theorem gsubF_pos {p : List Char} (r : List Char) {c : Char} {cs : List Char} (fuel : Nat)
    (h : p.isPrefixOf (c :: cs) = true) :
    gsubF p r (fuel + 1) (c :: cs) = r ++ gsubF p r fuel (cs.drop (p.length - 1)) := by
  rw [gsubF]
  simp [h]

/-- Helper: unfolding equation of `gsubF` at a non-match position. -/
theorem gsubF_neg {p : List Char} (r : List Char) {c : Char} {cs : List Char} (fuel : Nat)
    (h : p.isPrefixOf (c :: cs) = false) :
    gsubF p r (fuel + 1) (c :: cs) = c :: gsubF p r fuel cs := by
  rw [gsubF]
  simp [h]

/-- Helper: a nonempty suffix of a list that ends with `a` contains `a`. -/
theorem mem_of_suffix_concat {u l : List Char} {a : Char} (h : u <:+ l ++ [a]) (hne : u ≠ []) :
    a ∈ u := by
  obtain ⟨s, hs⟩ := h
  rcases List.eq_nil_or_concat u with rfl | ⟨u1, b, rfl⟩
  · exact absurd rfl hne
  · rw [List.concat_eq_append] at hs ⊢
    have hx : (s ++ u1) ++ [b] = l ++ [a] := by
      rw [← hs]
      simp [List.append_assoc]
    have h2 := List.append_inj' hx (by simp)
    have hb : b = a := by
      have h3 := h2.2
      injection h3
    subst hb
    simp

/-- Helper: every nonempty tail-end of a placeholder token contains the
dollar character, because the token ends with one. -/
theorem dollar_mem_drop_tokenOf (mid : List Char) (k : Nat)
    (h : (tokenOf mid).drop k ≠ []) : dollar ∈ (tokenOf mid).drop k := by
  have hsuf : (tokenOf mid).drop k <:+ tokenOf mid := List.drop_suffix k _
  have hshape : tokenOf mid = (dollar :: mid) ++ [dollar] := by simp [tokenOf]
  rw [hshape] at hsuf
  exact mem_of_suffix_concat hsuf h

/-- Helper: any nonempty leading part of a placeholder token contains
the dollar character, because the token begins with one. -/
theorem dollar_mem_of_append_tokenOf {mid t1 t2 : List Char} (h : tokenOf mid = t1 ++ t2)
    (hne : t1 ≠ []) : dollar ∈ t1 := by
  cases t1 with
  | nil => exact absurd rfl hne
  | cons a t1 =>
    simp only [tokenOf, List.cons_append] at h
    injection h with h1 h2
    rw [← h1]
    exact List.mem_cons_self _ _

/-- Helper: a dollar-free infix of a placeholder token is an infix of
its interior. -/
theorem infix_mid_of_infix_tokenOf {mid r : List Char} (h : r <:+: tokenOf mid)
    (hd : dollar ∉ r) : r <:+: mid := by
  obtain ⟨s, u, hsu⟩ := h
  cases s with
  | nil =>
    cases r with
    | nil => exact List.nil_infix
    | cons a r2 =>
      rw [List.nil_append] at hsu
      simp only [tokenOf, List.cons_append] at hsu
      injection hsu with h1 h2
      exact absurd (h1 ▸ List.mem_cons_self a r2) hd
  | cons b s2 =>
    simp only [tokenOf, List.cons_append] at hsu
    injection hsu with hb htail
    rcases List.eq_nil_or_concat u with rfl | ⟨u1, a2, rfl⟩
    · rcases List.eq_nil_or_concat r with rfl | ⟨r1, a3, rfl⟩
      · exact List.nil_infix
      · rw [List.concat_eq_append] at htail hd
        have hx : (s2 ++ r1) ++ [a3] = mid ++ [dollar] := by
          rw [← htail]
          simp [List.append_assoc]
        have h2 := List.append_inj' hx (by simp)
        have ha : a3 = dollar := by
          have h3 := h2.2
          injection h3
        exact absurd (by simp [ha]) hd
    · rw [List.concat_eq_append] at htail
      have hx : (s2 ++ r ++ u1) ++ [a2] = mid ++ [dollar] := by
        rw [← htail]
        simp [List.append_assoc]
      have h2 := List.append_inj' hx (by simp)
      exact ⟨s2, u1, h2.1⟩

/-- Helper: an infix of an append is an infix of the left part, an infix
of the right part, or straddles the seam, splitting into a nonempty
suffix of the left part followed by a nonempty prefix of the right
part. -/
theorem infix_append_split {t a b : List Char} (h : t <:+: a ++ b) :
    t <:+: a ∨ t <:+: b ∨
      ∃ t1 t2, t = t1 ++ t2 ∧ t1 ≠ [] ∧ t2 ≠ [] ∧ t1 <:+ a ∧ t2 <+: b := by
  obtain ⟨s, u, hsu⟩ := h
  have hsu2 : s ++ (t ++ u) = a ++ b := by
    rw [← hsu]
    simp [List.append_assoc]
  rcases List.append_eq_append_iff.mp hsu2 with ⟨a2, ha, hb⟩ | ⟨c2, hs2, hb⟩
  · rcases List.append_eq_append_iff.mp hb with ⟨x, hax, hux⟩ | ⟨y, hty, hby⟩
    · left
      exact ⟨s, x, by rw [ha, hax]; simp [List.append_assoc]⟩
    · rcases eq_or_ne a2 [] with rfl | ha2
      · right; left
        refine ⟨[], u, ?_⟩
        rw [List.nil_append] at hty
        rw [hby, hty, List.nil_append]
      · rcases eq_or_ne y [] with rfl | hy
        · left
          have : t = a2 := by rw [hty, List.append_nil]
          subst this
          exact (show t <:+ a from ⟨s, ha.symm⟩).isInfix
        · right; right
          exact ⟨a2, y, hty, ha2, hy, ⟨s, ha.symm⟩, ⟨u, hby.symm⟩⟩
  · right; left
    exact ⟨c2, u, by rw [hb]; simp [List.append_assoc]⟩

/-- Helper for the substitution-pass theorem: if some tail-end of a
token is a prefix of the output of the fueled global replacement, and
the replacement string is dollar-free and no infix of the token, then
that tail-end was already a prefix of the input (the scan only copies
input characters in front of replacement insertions, and a token
tail-end can never begin inside an inserted replacement). -/
theorem gsubF_prefix_transfer (p r t : List Char) (hr : dollar ∉ r) (hrt : ¬ r <:+: t)
    (hdol : ∀ k, t.drop k ≠ [] → dollar ∈ t.drop k) :
    ∀ fuel s k, t.drop k ≠ [] → t.drop k <+: gsubF p r fuel s → t.drop k <+: s := by
  intro fuel
  induction fuel with
  | zero =>
    intro s k hne hp
    exact hp
  | succ fuel ih =>
    intro s k hne hp
    cases s with
    | nil =>
      rw [gsubF_nil] at hp
      exact absurd (List.prefix_nil.mp hp) hne
    | cons c cs =>
      by_cases hm : p.isPrefixOf (c :: cs) = true
      · rw [gsubF_pos r fuel hm] at hp
        exfalso
        rcases Nat.le_total (t.drop k).length r.length with hle | hle
        · have hur : t.drop k <+: r :=
            List.prefix_of_prefix_length_le hp (List.prefix_append r _) hle
          exact hr (hur.sublist.subset (hdol k hne))
        · have hru : r <+: t.drop k :=
            List.prefix_of_prefix_length_le (List.prefix_append r _) hp hle
          exact hrt (List.infix_iff_prefix_suffix.mpr ⟨t.drop k, hru, List.drop_suffix k t⟩)
      · have hm2 : p.isPrefixOf (c :: cs) = false := Bool.eq_false_iff.mpr hm
        rw [gsubF_neg r fuel hm2] at hp
        obtain ⟨u0, u1, hu⟩ : ∃ u0 u1, t.drop k = u0 :: u1 := by
          rcases hcase : t.drop k with _ | ⟨x, xs⟩
          · exact absurd hcase hne
          · exact ⟨x, xs, rfl⟩
        rw [hu] at hp
        rw [List.cons_prefix_cons] at hp
        obtain ⟨rfl, hp1⟩ := hp
        have hdrop : t.drop (k + 1) = u1 := by
          have hd : t.drop (k + 1) = (t.drop k).drop 1 := by
            rw [List.drop_drop]
          rw [hd, hu]
          rfl
        rcases eq_or_ne u1 [] with rfl | hu1
        · rw [hu]
          exact List.cons_prefix_cons.mpr ⟨rfl, List.nil_prefix⟩
        · have hrec := ih cs (k + 1) (by rw [hdrop]; exact hu1) (by rw [hdrop]; exact hp1)
          rw [hdrop] at hrec
          rw [hu]
          exact List.cons_prefix_cons.mpr ⟨rfl, hrec⟩

/-- Helper for the substitution-pass theorem: a fueled global
replacement whose replacement string is dollar-free and no infix of the
token's interior never leaves an occurrence of the token, provided the
pattern is the token itself (elimination) or the input was already
token-free (preservation). -/
theorem gsubF_not_infix_token (p r mid : List Char) (hr : dollar ∉ r) (hrm : ¬ r <:+: mid) :
    ∀ fuel s, s.length ≤ fuel → (p = tokenOf mid ∨ ¬ tokenOf mid <:+: s) →
      ¬ tokenOf mid <:+: gsubF p r fuel s := by
  have hrt : ¬ r <:+: tokenOf mid := fun hc => hrm (infix_mid_of_infix_tokenOf hc hr)
  have hdol := dollar_mem_drop_tokenOf mid
  intro fuel
  induction fuel with
  | zero =>
    intro s hlen hp hcon
    have hs : s = [] := List.length_eq_zero.mp (Nat.le_zero.mp hlen)
    subst hs
    rw [gsubF_zero] at hcon
    rw [List.infix_nil] at hcon
    exact absurd hcon (by simp [tokenOf])
  | succ fuel ih =>
    intro s hlen hp hcon
    cases s with
    | nil =>
      rw [gsubF_nil] at hcon
      rw [List.infix_nil] at hcon
      exact absurd hcon (by simp [tokenOf])
    | cons c cs =>
      have hlen2 : cs.length ≤ fuel := by
        simp only [List.length_cons] at hlen
        omega
      by_cases hm : p.isPrefixOf (c :: cs) = true
      · rw [gsubF_pos r fuel hm] at hcon
        rcases infix_append_split hcon with hin | hin | ⟨t1, t2, ht, h1ne, h2ne, h1, h2⟩
        · exact hr (hin.sublist.subset (by simp [tokenOf]))
        · have hlen3 : (cs.drop (p.length - 1)).length ≤ fuel := by
            rw [List.length_drop]
            omega
          have hp2 : p = tokenOf mid ∨ ¬ tokenOf mid <:+: cs.drop (p.length - 1) := by
            rcases hp with hp | hp
            · exact Or.inl hp
            · right
              intro hc
              exact hp (hc.trans (((List.drop_suffix _ cs).trans (List.suffix_cons c cs)).isInfix))
          exact ih (cs.drop (p.length - 1)) hlen3 hp2 hin
        · have hd1 : dollar ∈ t1 := dollar_mem_of_append_tokenOf ht h1ne
          exact hr (h1.sublist.subset hd1)
      · have hm2 : p.isPrefixOf (c :: cs) = false := Bool.eq_false_iff.mpr hm
        rw [gsubF_neg r fuel hm2] at hcon
        rcases List.infix_cons_iff.mp hcon with hpre | hin
        · have hback : tokenOf mid <+: gsubF p r (fuel + 1) (c :: cs) := by
            rw [gsubF_neg r fuel hm2]
            exact hpre
          have hne : tokenOf mid ≠ [] := by simp [tokenOf]
          have h0 := gsubF_prefix_transfer p r (tokenOf mid) hr hrt hdol (fuel + 1) (c :: cs) 0
          rw [List.drop_zero] at h0
          have hts : tokenOf mid <+: (c :: cs) := h0 hne hback
          rcases hp with hp | hp
          · have htrue : p.isPrefixOf (c :: cs) = true := by
              rw [List.isPrefixOf_iff_prefix, hp]
              exact hts
            rw [htrue] at hm2
            exact Bool.noConfusion hm2
          · exact hp hts.isInfix
        · have hp2 : p = tokenOf mid ∨ ¬ tokenOf mid <:+: cs := by
            rcases hp with hp | hp
            · exact Or.inl hp
            · exact Or.inr (fun hc => hp (List.infix_cons_iff.mpr (Or.inr hc)))
          exact ih cs hlen2 hp2 hin

/-- Helper: the unfueled form of the token-freedom property of a single
global replacement. -/
theorem gsub_not_infix_token (p r mid s : List Char) (hr : dollar ∉ r) (hrm : ¬ r <:+: mid)
    (hp : p = tokenOf mid ∨ ¬ tokenOf mid <:+: s) : ¬ tokenOf mid <:+: gsub p r s :=
  gsubF_not_infix_token p r mid hr hrm s.length s (Nat.le_refl _) hp

/-- C8 amended: after the substitution pass every destination file
contains zero literal occurrences of every placeholder token, provided
each rendered module-name variant contains no dollar character and is
not a substring of any token's interior; without this proviso a
replacement can recreate a token by concatenation with adjacent content,
as the counterexample shows. -/
theorem C8_theorem (content r1 r2 r3 r4 r5 r6 : List Char)
    (h : ∀ rr ∈ [r1, r2, r3, r4, r5, r6], dollar ∉ rr ∧ ∀ m ∈ tokenInteriors, ¬ rr <:+: m) :
    ∀ t ∈ placeholderTokens,
      occursIn t (substituteTokens r1 r2 r3 r4 r5 r6 content) = false := by
  obtain ⟨h1d, h1m⟩ := h r1 (by simp)
  obtain ⟨h2d, h2m⟩ := h r2 (by simp)
  obtain ⟨h3d, h3m⟩ := h r3 (by simp)
  obtain ⟨h4d, h4m⟩ := h r4 (by simp)
  obtain ⟨h5d, h5m⟩ := h r5 (by simp)
  obtain ⟨h6d, h6m⟩ := h r6 (by simp)
  have m1 : "module".data ∈ tokenInteriors := by simp [tokenInteriors]
  have m2 : "_module".data ∈ tokenInteriors := by simp [tokenInteriors]
  have m3 : "-module".data ∈ tokenInteriors := by simp [tokenInteriors]
  have m4 : "Module".data ∈ tokenInteriors := by simp [tokenInteriors]
  have m5 : "MoDuLe".data ∈ tokenInteriors := by simp [tokenInteriors]
  have m6 : "MODULE".data ∈ tokenInteriors := by simp [tokenInteriors]
  have c1a : ¬ tokenOf "module".data <:+: gsub tokModule r1 content :=
    gsub_not_infix_token _ _ _ _ h1d (h1m _ m1) (Or.inl rfl)
  have c1b : ¬ tokenOf "module".data <:+:
      gsub tokSnakeModule r2 (gsub tokModule r1 content) :=
    gsub_not_infix_token _ _ _ _ h2d (h2m _ m1) (Or.inr c1a)
  have c1c : ¬ tokenOf "module".data <:+:
      gsub tokKebabModule r3 (gsub tokSnakeModule r2 (gsub tokModule r1 content)) :=
    gsub_not_infix_token _ _ _ _ h3d (h3m _ m1) (Or.inr c1b)
  have c1d : ¬ tokenOf "module".data <:+:
      gsub tokPascalModule r4
        (gsub tokKebabModule r3 (gsub tokSnakeModule r2 (gsub tokModule r1 content))) :=
    gsub_not_infix_token _ _ _ _ h4d (h4m _ m1) (Or.inr c1c)
  have c1e : ¬ tokenOf "module".data <:+:
      gsub tokMoDuLe r5
        (gsub tokPascalModule r4
          (gsub tokKebabModule r3 (gsub tokSnakeModule r2 (gsub tokModule r1 content)))) :=
    gsub_not_infix_token _ _ _ _ h5d (h5m _ m1) (Or.inr c1d)
  have c1f : ¬ tokenOf "module".data <:+:
      gsub tokUpperModule r6
        (gsub tokMoDuLe r5
          (gsub tokPascalModule r4
            (gsub tokKebabModule r3 (gsub tokSnakeModule r2 (gsub tokModule r1 content))))) :=
    gsub_not_infix_token _ _ _ _ h6d (h6m _ m1) (Or.inr c1e)
  have c2b : ¬ tokenOf "_module".data <:+:
      gsub tokSnakeModule r2 (gsub tokModule r1 content) :=
    gsub_not_infix_token _ _ _ _ h2d (h2m _ m2) (Or.inl rfl)
  have c2c : ¬ tokenOf "_module".data <:+:
      gsub tokKebabModule r3 (gsub tokSnakeModule r2 (gsub tokModule r1 content)) :=
    gsub_not_infix_token _ _ _ _ h3d (h3m _ m2) (Or.inr c2b)
  have c2d : ¬ tokenOf "_module".data <:+:
      gsub tokPascalModule r4
        (gsub tokKebabModule r3 (gsub tokSnakeModule r2 (gsub tokModule r1 content))) :=
    gsub_not_infix_token _ _ _ _ h4d (h4m _ m2) (Or.inr c2c)
  have c2e : ¬ tokenOf "_module".data <:+:
      gsub tokMoDuLe r5
        (gsub tokPascalModule r4
          (gsub tokKebabModule r3 (gsub tokSnakeModule r2 (gsub tokModule r1 content)))) :=
    gsub_not_infix_token _ _ _ _ h5d (h5m _ m2) (Or.inr c2d)
  have c2f : ¬ tokenOf "_module".data <:+:
      gsub tokUpperModule r6
        (gsub tokMoDuLe r5
          (gsub tokPascalModule r4
            (gsub tokKebabModule r3 (gsub tokSnakeModule r2 (gsub tokModule r1 content))))) :=
    gsub_not_infix_token _ _ _ _ h6d (h6m _ m2) (Or.inr c2e)
  have c3c : ¬ tokenOf "-module".data <:+:
      gsub tokKebabModule r3 (gsub tokSnakeModule r2 (gsub tokModule r1 content)) :=
    gsub_not_infix_token _ _ _ _ h3d (h3m _ m3) (Or.inl rfl)
  have c3d : ¬ tokenOf "-module".data <:+:
      gsub tokPascalModule r4
        (gsub tokKebabModule r3 (gsub tokSnakeModule r2 (gsub tokModule r1 content))) :=
    gsub_not_infix_token _ _ _ _ h4d (h4m _ m3) (Or.inr c3c)
  have c3e : ¬ tokenOf "-module".data <:+:
      gsub tokMoDuLe r5
        (gsub tokPascalModule r4
          (gsub tokKebabModule r3 (gsub tokSnakeModule r2 (gsub tokModule r1 content)))) :=
    gsub_not_infix_token _ _ _ _ h5d (h5m _ m3) (Or.inr c3d)
  have c3f : ¬ tokenOf "-module".data <:+:
      gsub tokUpperModule r6
        (gsub tokMoDuLe r5
          (gsub tokPascalModule r4
            (gsub tokKebabModule r3 (gsub tokSnakeModule r2 (gsub tokModule r1 content))))) :=
    gsub_not_infix_token _ _ _ _ h6d (h6m _ m3) (Or.inr c3e)
  have c4d : ¬ tokenOf "Module".data <:+:
      gsub tokPascalModule r4
        (gsub tokKebabModule r3 (gsub tokSnakeModule r2 (gsub tokModule r1 content))) :=
    gsub_not_infix_token _ _ _ _ h4d (h4m _ m4) (Or.inl rfl)
  have c4e : ¬ tokenOf "Module".data <:+:
      gsub tokMoDuLe r5
        (gsub tokPascalModule r4
          (gsub tokKebabModule r3 (gsub tokSnakeModule r2 (gsub tokModule r1 content)))) :=
    gsub_not_infix_token _ _ _ _ h5d (h5m _ m4) (Or.inr c4d)
  have c4f : ¬ tokenOf "Module".data <:+:
      gsub tokUpperModule r6
        (gsub tokMoDuLe r5
          (gsub tokPascalModule r4
            (gsub tokKebabModule r3 (gsub tokSnakeModule r2 (gsub tokModule r1 content))))) :=
    gsub_not_infix_token _ _ _ _ h6d (h6m _ m4) (Or.inr c4e)
  have c5e : ¬ tokenOf "MoDuLe".data <:+:
      gsub tokMoDuLe r5
        (gsub tokPascalModule r4
          (gsub tokKebabModule r3 (gsub tokSnakeModule r2 (gsub tokModule r1 content)))) :=
    gsub_not_infix_token _ _ _ _ h5d (h5m _ m5) (Or.inl rfl)
  have c5f : ¬ tokenOf "MoDuLe".data <:+:
      gsub tokUpperModule r6
        (gsub tokMoDuLe r5
          (gsub tokPascalModule r4
            (gsub tokKebabModule r3 (gsub tokSnakeModule r2 (gsub tokModule r1 content))))) :=
    gsub_not_infix_token _ _ _ _ h6d (h6m _ m5) (Or.inr c5e)
  have c6f : ¬ tokenOf "MODULE".data <:+:
      gsub tokUpperModule r6
        (gsub tokMoDuLe r5
          (gsub tokPascalModule r4
            (gsub tokKebabModule r3 (gsub tokSnakeModule r2 (gsub tokModule r1 content))))) :=
    gsub_not_infix_token _ _ _ _ h6d (h6m _ m6) (Or.inl rfl)
  intro t ht
  simp only [placeholderTokens, List.mem_cons, List.not_mem_nil, or_false] at ht
  rcases ht with rfl | rfl | rfl | rfl | rfl | rfl
  · exact Bool.eq_false_iff.mpr fun hocc => c1f (occursIn_iff.mp hocc)
  · exact Bool.eq_false_iff.mpr fun hocc => c2f (occursIn_iff.mp hocc)
  · exact Bool.eq_false_iff.mpr fun hocc => c3f (occursIn_iff.mp hocc)
  · exact Bool.eq_false_iff.mpr fun hocc => c4f (occursIn_iff.mp hocc)
  · exact Bool.eq_false_iff.mpr fun hocc => c5f (occursIn_iff.mp hocc)
  · exact Bool.eq_false_iff.mpr fun hocc => c6f (occursIn_iff.mp hocc)

/-- Witness for C8 at the module name `user` (rendered variants `user`,
`user`, `user`, `User`, `User`, `USER`) on a content exercising three
tokens. -/
theorem C8_witness :
    (∀ rr ∈ ["user".data, "user".data, "user".data, "User".data, "User".data, "USER".data],
        dollar ∉ rr ∧ ∀ m ∈ tokenInteriors, ¬ rr <:+: m) ∧
      occursIn tokModule
        (substituteTokens "user".data "user".data "user".data "User".data "User".data
          "USER".data "a $module$ b $Module$ c $MODULE$ d".data) = false :=
  ⟨by decide,
    C8_theorem "a $module$ b $Module$ c $MODULE$ d".data "user".data "user".data "user".data
      "User".data "User".data "USER".data (by decide) tokModule (by simp [placeholderTokens])⟩

/-- C8 counterexample: with module name `odu` (whose rendered variants
are `odu`, `odu`, `odu`, `Odu`, `Odu`, `ODU`) the substitution pass on
the content `$m$module$le$` leaves a literal occurrence of the token
`$module$`: replacing the inner token by `odu` recreates the token by
concatenation. -/
theorem C8_counterexample :
    occursIn tokModule
      (substituteTokens "odu".data "odu".data "odu".data "Odu".data "Odu".data "ODU".data
        "$m$module$le$".data) = true := by
  decide

end CliUtil
